import Mathlib

/-!
Verification of the settings-metadata module and the expository-math editor
plugin of the Lurch repository.

The settings-metadata module defines a hierarchy of data classes
(`SettingMetadata` and its subclasses `BoolSettingMetadata`,
`ColorSettingMetadata`, `TextSettingMetadata`, `CategorySettingMetadata`,
`NoteMetadata`, plus the aggregates `SettingsCategoryMetadata` and
`SettingsMetadata`).  The expository-math module defines an editor plugin
(`ExpositoryMath` and an `install` function).  Both are shallowly embedded
below: JavaScript values are modelled by `JSVal`, JavaScript objects used as
string-keyed dictionaries by association lists with JavaScript property
semantics (`jsSet` / `jsGet`), and a JavaScript `throw` by `Except.error`.
-/

namespace Lurch

/-- Primitive JavaScript values, as far as the settings module manipulates
them: strings, booleans, integers, `undefined` and `null`. -/
inductive JSVal where
  | str (s : String)
  | boolV (b : Bool)
  | numV (n : Int)
  | undefV
  | null
deriving DecidableEq, Repr

/-- String coercion of a JavaScript value, as performed by a template
literal such as `${defaultValue}` in the source. -/
def jsToString : JSVal → String
  | .str s => s
  | .boolV true => "true"
  | .boolV false => "false"
  | .numV n => toString n
  | .undefV => "undefined"
  | .null => "null"

/-- Truthiness of a JavaScript value: the empty string, `false`, `0`,
`undefined` and `null` are falsy, everything else is truthy. -/
def jsTruthy : JSVal → Bool
  | .str s => s ≠ ""
  | .boolV b => b
  | .numV n => n ≠ 0
  | .undefV => false
  | .null => false

/-- Whether a JavaScript value is a string. -/
def JSVal.isString : JSVal → Bool
  | .str _ => true
  | _ => false

/-- Truthiness of an optional string (a `name` field that is either a string
or `undefined`): `undefined` and the empty string are falsy. -/
def optTruthy : Option String → Bool
  | some s => s ≠ ""
  | none => false

/-- One entry of the drop-down list of a `CategorySettingMetadata`, built in
its constructor as `{ value : ${option}, text : ${option} }`. -/
structure SelectItem where
  value : JSVal
  text : JSVal
deriving DecidableEq, Repr

/-- A constructed object of the leaf classes of the `SettingMetadata`
hierarchy.  The base class stores `name`, `label` and `defaultValue`; each
subclass constructor additionally sets a `type` tag and, for the category
and note subclasses, further fields.  Note objects call `super()` with no
arguments, so their `name`, `label` and `defaultValue` are `undefined`. -/
inductive SettingMetadata where
  | boolS (name label : String) (defaultValue : JSVal)
  | colorS (name label : String) (defaultValue : JSVal)
  | textS (name label : String) (defaultValue : JSVal)
  | catS (name label : String) (items : List SelectItem) (defaultValue : JSVal)
  | noteAlert (level icon : String) (text : JSVal)
  | noteHtml (html : JSVal)
deriving DecidableEq, Repr

/-- The `name` own property: a string for the four setting subclasses,
`undefined` (here `none`) for notes. -/
def SettingMetadata.name : SettingMetadata → Option String
  | .boolS n _ _ => some n
  | .colorS n _ _ => some n
  | .textS n _ _ => some n
  | .catS n _ _ _ => some n
  | .noteAlert _ _ _ => none
  | .noteHtml _ => none

/-- The `defaultValue` own property, `undefined` for notes. -/
def SettingMetadata.defaultValue : SettingMetadata → JSVal
  | .boolS _ _ dv => dv
  | .colorS _ _ dv => dv
  | .textS _ _ dv => dv
  | .catS _ _ _ dv => dv
  | .noteAlert _ _ _ => .undefV
  | .noteHtml _ => .undefV

/-- The `items` own property of a category setting, `[]` for every other
subclass (which has no such property). -/
def SettingMetadata.items : SettingMetadata → List SelectItem
  | .catS _ _ its _ => its
  | _ => []

/-- Constructor of `BoolSettingMetadata`: stores the arguments and marks the
setting as a checkbox. -/
def BoolSettingMetadata.make (name label : String) (defaultValue : JSVal) :
    SettingMetadata :=
  .boolS name label defaultValue

/-- Constructor of `ColorSettingMetadata`: stores the arguments and marks the
setting as a color picker. -/
def ColorSettingMetadata.make (name label : String) (defaultValue : JSVal) :
    SettingMetadata :=
  .colorS name label defaultValue

/-- Constructor of `TextSettingMetadata`: passes `${defaultValue}` (the
string coercion of the argument) to the superclass. -/
def TextSettingMetadata.make (name label : String) (defaultValue : JSVal) :
    SettingMetadata :=
  .textS name label (.str (jsToString defaultValue))

/-- Constructor of `CategorySettingMetadata`: coerces the default value to a
string and builds one `{ value, text }` item per option, both fields being
the string coercion of the option. -/
def CategorySettingMetadata.make (name label : String) (options : List JSVal)
    (defaultValue : JSVal) : SettingMetadata :=
  .catS name label
    (options.map (fun option =>
      { value := .str (jsToString option), text := .str (jsToString option) }))
    (.str (jsToString defaultValue))

/-- The static `NoteMetadata.styleToIcon` table mapping TinyMCE alert banner
types to icon names. -/
def styleToIcon (s : String) : Option String :=
  if s = "info" then some "info"
  else if s = "warn" then some "warning"
  else if s = "error" then some "notice"
  else if s = "success" then some "selected"
  else none

/-- Constructor of `NoteMetadata`: with a truthy style it either throws
(when the style is not a key of `styleToIcon`) or builds an alert banner;
with a falsy style it builds a plain HTML panel. -/
def NoteMetadata.make (content style : JSVal) : Except String SettingMetadata :=
  if jsTruthy style then
    match styleToIcon (jsToString style) with
    | some icon => .ok (.noteAlert (jsToString style) icon content)
    | none => .error ("Invalid note style: " ++ jsToString style)
  else .ok (.noteHtml content)

/-- The `convert` method.  `BoolSettingMetadata` overrides it to compare the
data strictly against `true` and `"true"`; `CategorySettingMetadata`
overrides it to return `${data}` when some item value strictly equals that
string and `this.items[0].value` otherwise, which throws a `TypeError` when
the item list is empty; every other subclass inherits the base method, which
returns the data unchanged. -/
def SettingMetadata.convert : SettingMetadata → JSVal → Except String JSVal
  | .boolS _ _ _, data => .ok (.boolV (data = .boolV true ∨ data = .str "true"))
  | .catS _ _ items _, data =>
    if items.any (fun item => item.value = .str (jsToString data)) then
      .ok (.str (jsToString data))
    else
      match items with
      | item :: _ => .ok item.value
      | [] => .error "TypeError"
  | _, data => .ok data

/-- Whether a metadata object is a category setting whose item list is
empty (the one shape on which `convert` throws). -/
def SettingMetadata.isEmptyCategory : SettingMetadata → Bool
  | .catS _ _ [] _ => true
  | _ => false

/-- A value stored in an own property of a metadata object: either a
primitive value or the item array of a category setting. -/
inductive PropValue where
  | prim (v : JSVal)
  | itemsV (l : List SelectItem)
deriving DecidableEq, Repr

/-- A JavaScript object used as a string-keyed dictionary: an association
list in property insertion order. -/
abbrev JSObject := List (String × JSVal)

/-- Property assignment `obj[k] = v`: updates the value in place when the
key is already present, otherwise appends the new property at the end. -/
def jsSet (obj : JSObject) (k : String) (v : JSVal) : JSObject :=
  if obj.any (fun p => p.1 = k) then
    obj.map (fun p => if p.1 = k then (k, v) else p)
  else obj ++ [(k, v)]

/-- Property read `obj[k]`: the value of the property named `k`, or
`none` (for `undefined`) when there is no such property. -/
def jsGet (obj : JSObject) (k : String) : Option JSVal :=
  (obj.find? (fun p => p.1 = k)).map (fun p => p.2)

/-- Object spread `{ ...a, ...b }`: every property of `b` is assigned into
a copy of `a`, so properties of `b` override those of `a`. -/
def jsMerge (a b : JSObject) : JSObject :=
  b.foldl (fun acc p => jsSet acc p.1 p.2) a

/-- The own properties of a constructed metadata object, in the order the
constructors assign them: the base-class fields `name`, `label`,
`defaultValue` first, then the subclass fields. -/
def ownProperties : SettingMetadata → List (String × PropValue)
  | .boolS n l dv =>
    [("name", .prim (.str n)), ("label", .prim (.str l)),
     ("defaultValue", .prim dv), ("type", .prim (.str "checkbox"))]
  | .colorS n l dv =>
    [("name", .prim (.str n)), ("label", .prim (.str l)),
     ("defaultValue", .prim dv), ("type", .prim (.str "colorinput"))]
  | .textS n l dv =>
    [("name", .prim (.str n)), ("label", .prim (.str l)),
     ("defaultValue", .prim dv), ("type", .prim (.str "input"))]
  | .catS n l its dv =>
    [("name", .prim (.str n)), ("label", .prim (.str l)),
     ("defaultValue", .prim dv), ("type", .prim (.str "selectbox")),
     ("items", .itemsV its)]
  | .noteAlert level icon text =>
    [("name", .prim .undefV), ("label", .prim .undefV),
     ("defaultValue", .prim .undefV), ("type", .prim (.str "alertbanner")),
     ("level", .prim (.str level)), ("icon", .prim (.str icon)),
     ("text", .prim text)]
  | .noteHtml html =>
    [("name", .prim .undefV), ("label", .prim .undefV),
     ("defaultValue", .prim .undefV), ("type", .prim (.str "htmlpanel")),
     ("html", .prim html)]

/-- Modelled from the spec: `copyWithoutPrototype` is imported from
`utilities.js`, which is not among the provided sources.  The spec treats
`control()` as a trivial method producing plain JSON control data from the
data-holder object, so the helper is modelled as copying the own properties
of the object into a fresh plain object (one with no prototype). -/
def copyWithoutPrototype (m : SettingMetadata) : List (String × PropValue) :=
  ownProperties m

/-- The base-class `control` method, inherited by every leaf subclass:
copies the object without its prototype and deletes the `defaultValue`
property from the copy. -/
def SettingMetadata.control (m : SettingMetadata) : List (String × PropValue) :=
  (copyWithoutPrototype m).filter (fun p => p.1 ≠ "defaultValue")

/-- A constructed `SettingsCategoryMetadata` object: a category name and the
ordered list of metadata objects in the category. -/
structure SettingsCategoryMetadata where
  name : String
  contents : List SettingMetadata
deriving DecidableEq, Repr

/-- The `keys` method of a category: the names of its contents in stored
order, with falsy names (notes, empty names) filtered out. -/
def SettingsCategoryMetadata.keys (c : SettingsCategoryMetadata) :
    List (Option String) :=
  (c.contents.map SettingMetadata.name).filter optTruthy

/-- The body of the `forEach` loop of
`SettingsCategoryMetadata.defaultSettings`: when the metadata's name is
truthy, assign its default value into the result object under that name. -/
def dsStep (result : JSObject) (m : SettingMetadata) : JSObject :=
  if optTruthy m.name then jsSet result (m.name.getD "") m.defaultValue
  else result

/-- The `defaultSettings` method of a category: builds an object by
assigning, for each content with a truthy name, its default value under its
name. -/
def SettingsCategoryMetadata.defaultSettings (c : SettingsCategoryMetadata) :
    JSObject :=
  c.contents.foldl dsStep []

/-- The `metadataFor` method of a category: the first content whose `name`
equals the key, or `undefined` (here `none`).  An `undefined` name never
equals a string key. -/
def SettingsCategoryMetadata.metadataFor (c : SettingsCategoryMetadata)
    (key : String) : Option SettingMetadata :=
  c.contents.find? (fun m => m.name = some key)

/-- A constructed `SettingsMetadata` object: the ordered list of its
categories. -/
structure SettingsMetadata where
  categories : List SettingsCategoryMetadata
deriving DecidableEq, Repr

/-- The `keys` method of the collection: the categories' key lists,
concatenated by `reduce( (a,b) => [...a, ...b], [] )`. -/
def SettingsMetadata.keys (s : SettingsMetadata) : List (Option String) :=
  (s.categories.map SettingsCategoryMetadata.keys).foldl (fun a b => a ++ b) []

/-- The `defaultSettings` method of the collection: the categories' default
objects, merged by `reduce( (a,b) => ({...a, ...b}), {} )`, so later
categories override earlier ones on shared names. -/
def SettingsMetadata.defaultSettings (s : SettingsMetadata) : JSObject :=
  (s.categories.map SettingsCategoryMetadata.defaultSettings).foldl jsMerge []

/-- The `metadataFor` method of the collection: scans the categories in
order and returns the first truthy per-category lookup result. -/
def SettingsMetadata.metadataFor (s : SettingsMetadata) (key : String) :
    Option SettingMetadata :=
  s.categories.findSome? (fun c => c.metadataFor key)

/-- All names (including empty ones) of the contents of a category, in
stored order; notes contribute nothing. -/
def catNames (c : SettingsCategoryMetadata) : List String :=
  c.contents.filterMap SettingMetadata.name

/-- All names of settings across a whole collection, in order. -/
def allNames (s : SettingsMetadata) : List String :=
  (s.categories.map catNames).flatten

/-- The state of the edit dialog of `ExpositoryMath.edit()`: the value of
the text input named `latex` (what `dialog.get('latex')` returns), the
value of the MathLive editor of the `preview` item, and whether the OK
button is enabled. -/
structure DialogState where
  latexField : String
  previewValue : String
  okEnabled : Bool
deriving DecidableEq, Repr

/-- The `empty()` helper of `ExpositoryMath.edit()`: whether the current
latex value is empty after trimming. -/
def emptyLatex (s : DialogState) : Bool :=
  s.latexField.trim = ""

namespace ExpositoryMath

/-- The `dialog.onChange` handler installed by `ExpositoryMath.edit()`.
When the changed component is named `latex` it copies the latex field into
the MathLive preview; when it is named `preview` it copies the MathLive
editor's value into the text input; in every case it then enables the OK
button exactly when the latex value is non-empty after trimming. -/
def onChange (componentName : String) (s : DialogState) : DialogState :=
  let s1 :=
    if componentName = "latex" then { s with previewValue := s.latexField }
    else s
  let s2 :=
    if componentName = "preview" then { s1 with latexField := s1.previewValue }
    else s1
  { s2 with okEnabled := !emptyLatex s2 }

/-- The continuation `dialog.show().then( userHitOK => ... )` of
`ExpositoryMath.edit()`, applied to the atom's stored latex metadata, the
dialog outcome and the dialog's final latex value.  It returns the resolved
boolean, the atom's latex metadata afterwards, and whether `update()` was
called to re-render the atom body. -/
def editResolve (atomLatex : String) (userHitOK : Bool) (dialogLatex : String) :
    Bool × String × Bool :=
  if !userHitOK || dialogLatex.trim = "" then (false, atomLatex, false)
  else (true, dialogLatex, true)

/-- The `update()` method: renders the stored latex through the external
`represent( latex, 'latex' )` function and fills the atom body with it. -/
def update (represent : String → String) (atomLatex : String) : String :=
  represent atomLatex

end ExpositoryMath

/-- The data of an atom created by `insertExpositoryMath` inside `install`:
`Atom.newInline( editor, '', { type : 'expositorymath', latex : '' } )`. -/
structure AtomInit where
  type : String
  latex : String
deriving DecidableEq, Repr

/-- What the `insertExpositoryMath` closure inside `install` creates. -/
def insertExpositoryMath : AtomInit :=
  { type := "expositorymath", latex := "" }

/-- The observable effect of one keypress on the handler installed by
`install`: whether the event was intercepted (`preventDefault` and
`stopPropagation`), which atom (if any) was created, and whether the new
atom was rendered (`update()`) and its edit-then-insert flow started. -/
structure KeypressEffect where
  defaultPrevented : Bool
  propagationStopped : Bool
  insertedAtom : Option AtomInit
  atomRendered : Bool
  editFlowStarted : Bool
deriving DecidableEq, Repr

/-- What `install( editor )` registers: the name under which the menu item
is added, its visible text, the atom its action creates, and the keypress
handler, as a function of the pressed key and of the current value of the
`dollar sign shortcut` setting (read from `appSettings` at keypress time). -/
structure InstallEffect where
  menuItemName : String
  menuText : String
  menuOnActionInserts : AtomInit
  keypressHandler : String → Bool → KeypressEffect

/-- The `install` function of the expository-math module. -/
def install : InstallEffect where
  menuItemName := "expositorymath"
  menuText := "Expository math"
  menuOnActionInserts := insertExpositoryMath
  keypressHandler := fun key dollarSignShortcut =>
    if key = "$" ∧ dollarSignShortcut then
      { defaultPrevented := true, propagationStopped := true,
        insertedAtom := some insertExpositoryMath,
        atomRendered := true, editFlowStarted := true }
    else
      { defaultPrevented := false, propagationStopped := false,
        insertedAtom := none, atomRendered := false, editFlowStarted := false }

/-!
Theorems settling the claims.
-/

lemma foldl_append_eq_flatten {α : Type} (L : List (List α)) (acc : List α) :
    L.foldl (fun a b => a ++ b) acc = acc ++ L.flatten := by
  induction L generalizing acc with
  | nil => simp
  | cons x xs ih => simp [ih]

lemma find?_replace_self (l : List (String × JSVal)) (k : String) (v : JSVal)
    (h : l.any (fun p => p.1 = k) = true) :
    (l.map (fun p => if p.1 = k then (k, v) else p)).find? (fun p => p.1 = k)
      = some (k, v) := by
  induction l with
  | nil => simp at h
  | cons p rest ih =>
    by_cases hp : p.1 = k
    · simp [hp, List.find?]
    · have h' : rest.any (fun p => p.1 = k) = true := by simpa [hp] using h
      simp [hp, List.find?, ih h']

lemma find?_replace_ne (l : List (String × JSVal)) (k k' : String) (v : JSVal)
    (hne : k' ≠ k) :
    (l.map (fun p => if p.1 = k' then (k', v) else p)).find? (fun p => p.1 = k)
      = l.find? (fun p => p.1 = k) := by
  induction l with
  | nil => rfl
  | cons p rest ih =>
    by_cases hp : p.1 = k'
    · have hpk : ¬ p.1 = k := by rw [hp]; exact hne
      rw [List.map_cons, if_pos hp, List.find?_cons_of_neg _ (by simp [hne]),
        List.find?_cons_of_neg _ (by simp [hpk]), ih]
    · by_cases hpk : p.1 = k
      · rw [List.map_cons, if_neg hp, List.find?_cons_of_pos _ (by simp [hpk]),
          List.find?_cons_of_pos _ (by simp [hpk])]
      · rw [List.map_cons, if_neg hp, List.find?_cons_of_neg _ (by simp [hpk]),
          List.find?_cons_of_neg _ (by simp [hpk]), ih]

lemma find?_of_any_false (l : List (String × JSVal)) (k : String)
    (h : ¬ l.any (fun p => p.1 = k) = true) :
    l.find? (fun p => p.1 = k) = none := by
  rw [List.find?_eq_none]
  intro p hp hpk
  exact h (List.any_eq_true.mpr ⟨p, hp, hpk⟩)

lemma jsGet_jsSet_self (obj : JSObject) (k : String) (v : JSVal) :
    jsGet (jsSet obj k v) k = some v := by
  unfold jsGet jsSet
  by_cases h : obj.any (fun p => p.1 = k)
  · rw [if_pos h, find?_replace_self obj k v h]
    rfl
  · rw [if_neg h, List.find?_append, find?_of_any_false obj k h]
    simp [List.find?]

lemma jsGet_jsSet_ne (obj : JSObject) (k k' : String) (v : JSVal)
    (hne : k' ≠ k) :
    jsGet (jsSet obj k' v) k = jsGet obj k := by
  unfold jsGet jsSet
  by_cases h : obj.any (fun p => p.1 = k')
  · rw [if_pos h, find?_replace_ne obj k k' v hne]
  · rw [if_neg h, List.find?_append]
    simp [List.find?, hne]

lemma jsGet_eq_none_of_not_key (obj : JSObject) (k : String)
    (h : ∀ p ∈ obj, p.1 ≠ k) : jsGet obj k = none := by
  unfold jsGet
  rw [List.find?_eq_none.mpr]
  · rfl
  · intro p hp hpk
    exact h p hp (of_decide_eq_true hpk)

lemma not_key_of_jsGet_eq_none (obj : JSObject) (k : String)
    (h : jsGet obj k = none) : ∀ p ∈ obj, p.1 ≠ k := by
  intro p hp hpk
  unfold jsGet at h
  rw [Option.map_eq_none', List.find?_eq_none] at h
  exact h p hp (decide_eq_true hpk)

lemma map_fst_jsSet_nodup (obj : JSObject) (k : String) (v : JSVal)
    (hnd : (obj.map Prod.fst).Nodup) :
    ((jsSet obj k v).map Prod.fst).Nodup := by
  unfold jsSet
  by_cases h : obj.any (fun p => p.1 = k)
  · rw [if_pos h]
    have heq : (obj.map (fun p => if p.1 = k then (k, v) else p)).map Prod.fst
        = obj.map Prod.fst := by
      rw [List.map_map]
      apply List.map_congr_left
      intro p _
      by_cases hp : p.1 = k <;> simp [hp, Function.comp]
    rw [heq]
    exact hnd
  · rw [if_neg h, List.map_append]
    have hk : k ∉ obj.map Prod.fst := by
      intro hmem
      rcases List.mem_map.mp hmem with ⟨p, hp, hfst⟩
      exact h (List.any_eq_true.mpr ⟨p, hp, decide_eq_true hfst⟩)
    simp [List.nodup_append, hnd, hk]

lemma jsGet_dsStep_ne (acc : JSObject) (m : SettingMetadata) (k : String)
    (hm : m.name ≠ some k) : jsGet (dsStep acc m) k = jsGet acc k := by
  unfold dsStep
  cases hname : m.name with
  | none => simp [optTruthy]
  | some s =>
    by_cases hs : s = ""
    · simp [optTruthy, hs]
    · have hsk : s ≠ k := fun heq => hm (by rw [hname, heq])
      rw [if_pos (by simp [optTruthy, hs]), Option.getD_some,
        jsGet_jsSet_ne acc k s m.defaultValue hsk]

lemma foldl_dsStep_get_of_not_mem (l : List SettingMetadata) (k : String)
    (hfind : ∀ m ∈ l, m.name ≠ some k) :
    ∀ acc : JSObject, jsGet (l.foldl dsStep acc) k = jsGet acc k := by
  induction l with
  | nil => intro acc; rfl
  | cons m rest ih =>
    intro acc
    have hm := hfind m (List.mem_cons_self m rest)
    have hrest : ∀ m' ∈ rest, m'.name ≠ some k := fun m' h' =>
      hfind m' (List.mem_cons_of_mem m h')
    rw [List.foldl_cons, ih hrest, jsGet_dsStep_ne acc m k hm]

lemma foldl_dsStep_get (l : List SettingMetadata) (k : String) (hk : k ≠ "")
    (hnd : (l.filterMap SettingMetadata.name).Nodup) :
    ∀ acc : JSObject,
      jsGet (l.foldl dsStep acc) k =
        match l.find? (fun m => m.name = some k) with
        | some m => some m.defaultValue
        | none => jsGet acc k := by
  induction l with
  | nil => intro acc; rfl
  | cons m rest ih =>
    intro acc
    by_cases hm : m.name = some k
    · rw [List.find?_cons_of_pos _ (by simp [hm])]
      have htail : (rest.filterMap SettingMetadata.name).Nodup ∧
          k ∉ rest.filterMap SettingMetadata.name := by
        have : ((m :: rest).filterMap SettingMetadata.name)
            = k :: rest.filterMap SettingMetadata.name := by
          simp [List.filterMap_cons, hm]
        rw [this] at hnd
        exact ⟨(List.nodup_cons.mp hnd).2, (List.nodup_cons.mp hnd).1⟩
      have hknotin : ∀ m' ∈ rest, m'.name ≠ some k := by
        intro m' hm' heq
        exact htail.2 (List.mem_filterMap.mpr ⟨m', hm', heq⟩)
      rw [List.foldl_cons, foldl_dsStep_get_of_not_mem rest k hknotin]
      unfold dsStep
      rw [if_pos (by simp [optTruthy, hm, hk]), hm, Option.getD_some,
        jsGet_jsSet_self]
    · rw [List.find?_cons_of_neg _ (by simp [hm])]
      have hnd' : (rest.filterMap SettingMetadata.name).Nodup := by
        cases hname : m.name with
        | none => simpa [List.filterMap_cons, hname] using hnd
        | some s =>
          have : ((m :: rest).filterMap SettingMetadata.name)
              = s :: rest.filterMap SettingMetadata.name := by
            simp [List.filterMap_cons, hname]
          rw [this] at hnd
          exact (List.nodup_cons.mp hnd).2
      rw [List.foldl_cons, ih hnd' (dsStep acc m)]
      cases hr : rest.find? (fun m' => m'.name = some k) with
      | some m' => rfl
      | none => exact jsGet_dsStep_ne acc m k hm

lemma cat_defaultSettings_get (c : SettingsCategoryMetadata) (k : String)
    (hk : k ≠ "") (hnd : (catNames c).Nodup) :
    jsGet c.defaultSettings k
      = (c.metadataFor k).map SettingMetadata.defaultValue := by
  unfold SettingsCategoryMetadata.defaultSettings SettingsCategoryMetadata.metadataFor
  rw [foldl_dsStep_get c.contents k hk hnd []]
  cases hr : c.contents.find? (fun m => m.name = some k) <;> simp [hr, jsGet]

lemma foldl_dsStep_keys_nodup (l : List SettingMetadata) :
    ∀ acc : JSObject, (acc.map Prod.fst).Nodup →
      ((l.foldl dsStep acc).map Prod.fst).Nodup := by
  induction l with
  | nil => intro acc h; exact h
  | cons m rest ih =>
    intro acc h
    rw [List.foldl_cons]
    apply ih
    unfold dsStep
    by_cases ht : optTruthy m.name
    · rw [if_pos ht]
      exact map_fst_jsSet_nodup acc _ _ h
    · rw [if_neg ht]
      exact h

lemma cat_defaultSettings_keys_nodup (c : SettingsCategoryMetadata) :
    ((c.defaultSettings).map Prod.fst).Nodup :=
  foldl_dsStep_keys_nodup c.contents [] (by simp)

lemma foldl_set_get_of_not_key (b : List (String × JSVal)) (k : String)
    (hall : ∀ p ∈ b, p.1 ≠ k) :
    ∀ a : JSObject,
      jsGet (b.foldl (fun acc p => jsSet acc p.1 p.2) a) k = jsGet a k := by
  induction b with
  | nil => intro a; rfl
  | cons p rest ih =>
    intro a
    have hp := hall p (List.mem_cons_self p rest)
    have hrest : ∀ p' ∈ rest, p'.1 ≠ k := fun p' h' =>
      hall p' (List.mem_cons_of_mem p h')
    rw [List.foldl_cons, ih hrest, jsGet_jsSet_ne a k p.1 p.2 hp]

lemma foldl_set_get_of_get (b : List (String × JSVal)) (k : String) (v : JSVal)
    (hb : jsGet b k = some v) (hnd : (b.map Prod.fst).Nodup) :
    ∀ a : JSObject,
      jsGet (b.foldl (fun acc p => jsSet acc p.1 p.2) a) k = some v := by
  induction b with
  | nil => simp [jsGet] at hb
  | cons p rest ih =>
    intro a
    by_cases hp : p.1 = k
    · have hv : p.2 = v := by
        unfold jsGet at hb
        rw [List.find?_cons_of_pos _ (by simp [hp])] at hb
        simpa using hb
      have hknotin : ∀ p' ∈ rest, p'.1 ≠ k := by
        intro p' hp' heq
        have : k ∈ rest.map Prod.fst := List.mem_map.mpr ⟨p', hp', heq⟩
        rw [List.map_cons, hp] at hnd
        exact (List.nodup_cons.mp hnd).1 this
      rw [List.foldl_cons, foldl_set_get_of_not_key rest k hknotin, hp, hv,
        jsGet_jsSet_self]
    · have hb' : jsGet rest k = some v := by
        unfold jsGet at hb ⊢
        rwa [List.find?_cons_of_neg _ (by simp [hp])] at hb
      have hnd' : (rest.map Prod.fst).Nodup := by
        rw [List.map_cons] at hnd
        exact (List.nodup_cons.mp hnd).2
      rw [List.foldl_cons, ih hb' hnd' (jsSet a p.1 p.2)]

lemma jsGet_jsMerge_of_none (a b : JSObject) (k : String)
    (hb : jsGet b k = none) : jsGet (jsMerge a b) k = jsGet a k :=
  foldl_set_get_of_not_key b k (not_key_of_jsGet_eq_none b k hb) a

lemma jsGet_jsMerge_of_some (a b : JSObject) (k : String) (v : JSVal)
    (hb : jsGet b k = some v) (hnd : (b.map Prod.fst).Nodup) :
    jsGet (jsMerge a b) k = some v :=
  foldl_set_get_of_get b k v hb hnd a

lemma findSome?_isSome_iff {α β : Type} (f : α → Option β) (l : List α) :
    (l.findSome? f).isSome ↔ ∃ a ∈ l, (f a).isSome := by
  induction l with
  | nil => simp
  | cons a as ih =>
    rw [List.findSome?_cons]
    cases hf : f a <;> simp [hf, ih]

lemma metadataFor_cat_isSome_iff (c : SettingsCategoryMetadata) (k : String) :
    (c.metadataFor k).isSome ↔ ∃ m ∈ c.contents, m.name = some k := by
  unfold SettingsCategoryMetadata.metadataFor
  rw [List.find?_isSome]
  simp

lemma metadataFor_cat_none_of_not_mem (c : SettingsCategoryMetadata)
    (k : String) (h : k ∉ catNames c) : c.metadataFor k = none := by
  unfold SettingsCategoryMetadata.metadataFor
  cases hr : c.contents.find? (fun m => m.name = some k) with
  | none => rfl
  | some m =>
    have hmem : m ∈ c.contents := List.mem_of_find?_eq_some hr
    have hname : m.name = some k := by
      have hp := List.find?_some hr
      simpa using hp
    exact absurd (List.mem_filterMap.mpr ⟨m, hmem, hname⟩) h

lemma mem_catNames_of_metadataFor (c : SettingsCategoryMetadata) (k : String)
    (m : SettingMetadata) (h : c.metadataFor k = some m) : k ∈ catNames c := by
  unfold SettingsCategoryMetadata.metadataFor at h
  have hmem : m ∈ c.contents := List.mem_of_find?_eq_some h
  have hname : m.name = some k := by
    have hp := List.find?_some h
    simpa using hp
  exact List.mem_filterMap.mpr ⟨m, hmem, hname⟩

lemma sm_fold_get (cats : List SettingsCategoryMetadata) (k : String)
    (hk : k ≠ "") :
    ((cats.map catNames).flatten).Nodup →
    ∀ acc : JSObject,
      jsGet ((cats.map SettingsCategoryMetadata.defaultSettings).foldl
          jsMerge acc) k =
        match cats.findSome? (fun c => c.metadataFor k) with
        | some m => some m.defaultValue
        | none => jsGet acc k := by
  induction cats with
  | nil => intro _ acc; rfl
  | cons c rest ih =>
    intro hnd acc
    have hndc : (catNames c).Nodup := by
      rw [List.map_cons, List.flatten_cons] at hnd
      exact hnd.of_append_left
    have hndrest : ((rest.map catNames).flatten).Nodup := by
      rw [List.map_cons, List.flatten_cons] at hnd
      exact hnd.of_append_right
    rw [List.map_cons, List.foldl_cons, List.findSome?_cons,
      ih hndrest (jsMerge acc c.defaultSettings)]
    cases hcm : c.metadataFor k with
    | some m =>
      have hkc : k ∈ catNames c := mem_catNames_of_metadataFor c k m hcm
      have hdisj : k ∉ (rest.map catNames).flatten := by
        rw [List.map_cons, List.flatten_cons, List.nodup_append] at hnd
        exact fun hmem => hnd.2.2 hkc hmem
      have hrestnone : rest.findSome? (fun c' => c'.metadataFor k) = none := by
        rw [List.findSome?_eq_none_iff]
        intro c' hc'
        apply metadataFor_cat_none_of_not_mem
        intro hmemc'
        exact hdisj (List.mem_flatten.mpr ⟨catNames c', List.mem_map_of_mem catNames hc', hmemc'⟩)
      rw [hrestnone]
      have hdsc : jsGet c.defaultSettings k = some m.defaultValue := by
        rw [cat_defaultSettings_get c k hk hndc, hcm]
        rfl
      exact jsGet_jsMerge_of_some acc c.defaultSettings k m.defaultValue hdsc
        (cat_defaultSettings_keys_nodup c)
    | none =>
      have hdsc : jsGet c.defaultSettings k = none := by
        rw [cat_defaultSettings_get c k hk hndc, hcm]
        rfl
      cases hr : rest.findSome? (fun c' => c'.metadataFor k) with
      | some m' => rfl
      | none => exact jsGet_jsMerge_of_none acc c.defaultSettings k hdsc

lemma mem_keys_iff (s : SettingsMetadata) (k : String) :
    some k ∈ s.keys
      ↔ (k ≠ "" ∧ ∃ c ∈ s.categories, ∃ m ∈ c.contents, m.name = some k) := by
  unfold SettingsMetadata.keys
  rw [foldl_append_eq_flatten, List.nil_append, List.mem_flatten]
  constructor
  · rintro ⟨lst, hlst, hmem⟩
    rcases List.mem_map.mp hlst with ⟨c, hc, rfl⟩
    unfold SettingsCategoryMetadata.keys at hmem
    rcases List.mem_filter.mp hmem with ⟨hmem', htruthy⟩
    rcases List.mem_map.mp hmem' with ⟨m, hm, hname⟩
    refine ⟨?_, c, hc, m, hm, hname⟩
    intro hemp
    rw [hemp] at htruthy
    simp [optTruthy] at htruthy
  · rintro ⟨hk, c, hc, m, hm, hname⟩
    refine ⟨c.keys, List.mem_map_of_mem SettingsCategoryMetadata.keys hc, ?_⟩
    unfold SettingsCategoryMetadata.keys
    refine List.mem_filter.mpr ⟨?_, by simp [optTruthy, hk]⟩
    exact hname ▸ List.mem_map_of_mem SettingMetadata.name hm

lemma metadataFor_isSome_iff (s : SettingsMetadata) (k : String) :
    (s.metadataFor k).isSome
      ↔ ∃ c ∈ s.categories, ∃ m ∈ c.contents, m.name = some k := by
  unfold SettingsMetadata.metadataFor
  rw [findSome?_isSome_iff]
  constructor
  · rintro ⟨c, hc, hsome⟩
    rcases (metadataFor_cat_isSome_iff c k).mp hsome with ⟨m, hm, hname⟩
    exact ⟨c, hc, m, hm, hname⟩
  · rintro ⟨c, hc, m, hm, hname⟩
    exact ⟨c, hc, (metadataFor_cat_isSome_iff c k).mpr ⟨m, hm, hname⟩⟩

/-- C1 (counterexample): the claim that every `convert` call returns
normally fails: a `CategorySettingMetadata` constructed with an empty
options list throws a `TypeError` from `convert`, because it reads
`this.items[0].value` on an empty item array. -/
theorem spec_c1_counterexample :
    (CategorySettingMetadata.make "choice" "Choice" [] JSVal.undefV).convert
      (JSVal.str "x") = Except.error "TypeError" := rfl

/-- C1 (amended): constructing a `NoteMetadata` throws exactly when the
style argument is truthy and not a key of `styleToIcon`; and a `convert`
call throws exactly when the receiver is a category setting whose item list
is empty (i.e. one constructed from an empty options list).  Every other
constructor and method of the module is total. -/
theorem spec_c1 :
    (∀ (content style : JSVal),
      (∃ e, NoteMetadata.make content style = .error e)
        ↔ (jsTruthy style = true ∧ styleToIcon (jsToString style) = none))
  ∧ (∀ (m : SettingMetadata) (data : JSVal),
      (∃ e, m.convert data = .error e) ↔ m.isEmptyCategory = true) := by
  constructor
  · intro content style
    by_cases ht : jsTruthy style
    · cases hsi : styleToIcon (jsToString style) <;>
        simp [NoteMetadata.make, ht, hsi]
    · simp [NoteMetadata.make, ht]
  · intro m data
    cases m with
    | catS n l items dv =>
      cases items with
      | nil => simp [SettingMetadata.convert, SettingMetadata.isEmptyCategory]
      | cons item rest =>
        by_cases hany :
            (item :: rest).any (fun it => it.value = .str (jsToString data)) <;>
          simp [SettingMetadata.convert, SettingMetadata.isEmptyCategory, hany]
    | boolS n l dv => simp [SettingMetadata.convert, SettingMetadata.isEmptyCategory]
    | colorS n l dv => simp [SettingMetadata.convert, SettingMetadata.isEmptyCategory]
    | textS n l dv => simp [SettingMetadata.convert, SettingMetadata.isEmptyCategory]
    | noteAlert lv ic tx => simp [SettingMetadata.convert, SettingMetadata.isEmptyCategory]
    | noteHtml h => simp [SettingMetadata.convert, SettingMetadata.isEmptyCategory]

/-- C3: the `onChange` handler of the edit dialog keeps the two widgets in
sync: a change of the `latex` component copies the latex field into the
preview, a change of the `preview` component copies the preview value into
the latex field, and after any change the OK button is enabled exactly when
the trimmed latex value is non-empty. -/
theorem spec_c3 : ∀ s : DialogState,
    (ExpositoryMath.onChange "latex" s).previewValue = s.latexField
  ∧ (ExpositoryMath.onChange "preview" s).latexField = s.previewValue
  ∧ ∀ componentName : String,
      ((ExpositoryMath.onChange componentName s).okEnabled = true
        ↔ (ExpositoryMath.onChange componentName s).latexField.trim ≠ "") := by
  intro s
  refine ⟨?_, ?_, ?_⟩
  · simp [ExpositoryMath.onChange]
  · simp [ExpositoryMath.onChange]
  · intro componentName
    simp [ExpositoryMath.onChange, emptyLatex]

/-- C4: the edit flow resolves to `false` and leaves the latex metadata
unchanged exactly when the user cancelled or the latex is empty after
trimming, and resolves to `true`, stores the dialog's latex and re-renders
the body exactly when the user confirmed with non-empty latex. -/
theorem spec_c4 : ∀ (atomLatex : String) (userHitOK : Bool) (dialogLatex : String),
    (ExpositoryMath.editResolve atomLatex userHitOK dialogLatex
        = (false, atomLatex, false)
      ↔ (userHitOK = false ∨ dialogLatex.trim = ""))
  ∧ (ExpositoryMath.editResolve atomLatex userHitOK dialogLatex
        = (true, dialogLatex, true)
      ↔ (userHitOK = true ∧ dialogLatex.trim ≠ "")) := by
  intro atomLatex userHitOK dialogLatex
  cases userHitOK <;> by_cases h : dialogLatex.trim = "" <;>
    simp [ExpositoryMath.editResolve, h]

/-- C5: the key list of a settings collection is the concatenation, in
category order, of the categories' key lists, and each category's key list
is the names of its contents in stored order with falsy names omitted. -/
theorem spec_c5 :
    (∀ s : SettingsMetadata,
      s.keys = (s.categories.map SettingsCategoryMetadata.keys).flatten)
  ∧ (∀ c : SettingsCategoryMetadata,
      c.keys = (c.contents.filter (fun m => optTruthy m.name)).map
        SettingMetadata.name) := by
  constructor
  · intro s
    simpa [SettingsMetadata.keys] using
      foldl_append_eq_flatten (s.categories.map SettingsCategoryMetadata.keys) []
  · intro c
    simp [SettingsCategoryMetadata.keys, List.filter_map, Function.comp_def]

/-- C6: for a category setting built from a non-empty options list,
`convert` returns the string form of the data when that string is among the
stored option values, and the first option value otherwise; in both cases
the result is a member of the option-value list. -/
theorem spec_c6 (name label : String) (options : List JSVal)
    (defaultValue data : JSVal) (h : options ≠ []) :
    ∃ v : String,
      (CategorySettingMetadata.make name label options defaultValue).convert data
          = .ok (.str v)
      ∧ JSVal.str v ∈ ((CategorySettingMetadata.make name label options
          defaultValue).items.map SelectItem.value)
      ∧ (JSVal.str (jsToString data) ∈ ((CategorySettingMetadata.make name label
            options defaultValue).items.map SelectItem.value)
          → v = jsToString data)
      ∧ (JSVal.str (jsToString data) ∉ ((CategorySettingMetadata.make name label
            options defaultValue).items.map SelectItem.value)
          → some (JSVal.str v) = ((CategorySettingMetadata.make name label options
              defaultValue).items.map SelectItem.value).head?) := by
  cases options with
  | nil => exact absurd rfl h
  | cons o os =>
    by_cases hmem : JSVal.str (jsToString data) ∈
        ((CategorySettingMetadata.make name label (o :: os)
          defaultValue).items.map SelectItem.value)
    · have hany : (((CategorySettingMetadata.make name label (o :: os)
          defaultValue).items).any
            (fun it => it.value = .str (jsToString data))) = true := by
        rcases List.mem_map.mp hmem with ⟨it, hit, hval⟩
        exact List.any_eq_true.mpr ⟨it, hit, decide_eq_true hval⟩
      refine ⟨jsToString data, ?_, hmem, fun _ => rfl, fun hnot => absurd hmem hnot⟩
      show (SettingMetadata.convert _ data) = _
      simp only [CategorySettingMetadata.make, SettingMetadata.items,
        SettingMetadata.convert] at hany ⊢
      rw [if_pos hany]
    · have hnotany : ¬ ((((CategorySettingMetadata.make name label (o :: os)
          defaultValue).items).any
            (fun it => it.value = .str (jsToString data))) = true) := by
        intro htrue
        rcases List.any_eq_true.mp htrue with ⟨it, hit, hval⟩
        exact hmem (List.mem_map.mpr ⟨it, hit, of_decide_eq_true hval⟩)
      refine ⟨jsToString o, ?_, ?_, fun hmem2 => absurd hmem2 hmem, fun _ => rfl⟩
      · show (SettingMetadata.convert _ data) = _
        simp only [CategorySettingMetadata.make, SettingMetadata.items,
          SettingMetadata.convert] at hnotany ⊢
        rw [if_neg hnotany]
        simp [List.map_cons]
      · simp [CategorySettingMetadata.make, SettingMetadata.items]

/-- C6 (witness): instantiation of `spec_c6` at a two-option category
setting and a datum not among the options. -/
theorem spec_c6_witness :
    ∃ v : String,
      (CategorySettingMetadata.make "s" "l" [JSVal.str "a", JSVal.str "b"]
          (JSVal.str "a")).convert (JSVal.str "z") = .ok (.str v)
      ∧ JSVal.str v ∈ ((CategorySettingMetadata.make "s" "l"
          [JSVal.str "a", JSVal.str "b"] (JSVal.str "a")).items.map SelectItem.value)
      ∧ (JSVal.str (jsToString (JSVal.str "z")) ∈ ((CategorySettingMetadata.make "s"
            "l" [JSVal.str "a", JSVal.str "b"] (JSVal.str "a")).items.map
            SelectItem.value)
          → v = jsToString (JSVal.str "z"))
      ∧ (JSVal.str (jsToString (JSVal.str "z")) ∉ ((CategorySettingMetadata.make "s"
            "l" [JSVal.str "a", JSVal.str "b"] (JSVal.str "a")).items.map
            SelectItem.value)
          → some (JSVal.str v) = ((CategorySettingMetadata.make "s" "l"
              [JSVal.str "a", JSVal.str "b"] (JSVal.str "a")).items.map
              SelectItem.value).head?) :=
  spec_c6 "s" "l" [JSVal.str "a", JSVal.str "b"] (JSVal.str "a") (JSVal.str "z")
    (by decide)

/-- C7: `install` registers the menu item under the name `expositorymath`,
and its keypress handler intercepts the event and creates, renders and
starts editing a fresh inline `expositorymath` atom with empty latex exactly
when the pressed key is `$` and the `dollar sign shortcut` setting is true;
with the setting false the keypress is not intercepted and no atom is
created. -/
theorem spec_c7 :
    install.menuItemName = "expositorymath"
  ∧ ∀ (key : String) (dollarSignShortcut : Bool),
      (install.keypressHandler key dollarSignShortcut =
          { defaultPrevented := true, propagationStopped := true,
            insertedAtom := some { type := "expositorymath", latex := "" },
            atomRendered := true, editFlowStarted := true }
        ↔ (key = "$" ∧ dollarSignShortcut = true))
    ∧ (dollarSignShortcut = false →
        install.keypressHandler key dollarSignShortcut =
          { defaultPrevented := false, propagationStopped := false,
            insertedAtom := none, atomRendered := false,
            editFlowStarted := false }) := by
  refine ⟨rfl, ?_⟩
  intro key dollarSignShortcut
  constructor
  · by_cases hk : key = "$" <;> cases dollarSignShortcut <;>
      simp [install, insertExpositoryMath, hk]
  · intro hoff
    subst hoff
    simp [install]

/-- C7 (witness): instantiation of `spec_c7` showing the `$` keypress is
not intercepted when the setting is off. -/
theorem spec_c7_witness :
    install.keypressHandler "$" false =
      { defaultPrevented := false, propagationStopped := false,
        insertedAtom := none, atomRendered := false, editFlowStarted := false } :=
  (spec_c7.2 "$" false).2 rfl

/-- C9: the inherited `control()` method returns a fresh object holding
exactly the own properties of the metadata record other than
`defaultValue`; being a pure copy, it neither mutates the record nor
aliases it. -/
theorem spec_c9 : ∀ m : SettingMetadata,
    (∀ p, p ∈ SettingMetadata.control m
      ↔ (p ∈ ownProperties m ∧ p.1 ≠ "defaultValue"))
  ∧ "defaultValue" ∉ (SettingMetadata.control m).map Prod.fst := by
  intro m
  constructor
  · intro p
    simp [SettingMetadata.control, copyWithoutPrototype, List.mem_filter]
  · intro hmem
    rcases List.mem_map.mp hmem with ⟨p, hp, hfst⟩
    rcases List.mem_filter.mp hp with ⟨_, hne⟩
    exact absurd hfst (of_decide_eq_true hne)

/-- C2: in a settings collection whose settings have pairwise-distinct
non-empty string names, the default-values object, the key list and the
per-setting lookup agree: for every key in `keys()`, `defaultSettings()`
maps it to the `defaultValue` of the metadata that `metadataFor` returns
for it. -/
theorem spec_c2 (s : SettingsMetadata) (k : String)
    (hnd : (allNames s).Nodup) (_hne : "" ∉ allNames s)
    (hkey : some k ∈ s.keys) :
    ∃ m, s.metadataFor k = some m
      ∧ jsGet s.defaultSettings k = some m.defaultValue := by
  rcases (mem_keys_iff s k).mp hkey with ⟨hk, hexists⟩
  obtain ⟨m, hm⟩ := Option.isSome_iff_exists.mp
    ((metadataFor_isSome_iff s k).mpr hexists)
  refine ⟨m, hm, ?_⟩
  unfold SettingsMetadata.defaultSettings
  rw [sm_fold_get s.categories k hk hnd []]
  unfold SettingsMetadata.metadataFor at hm
  rw [hm]

/-- C2 (witness): instantiation of `spec_c2` at a two-category collection
whose three settings have distinct non-empty names. -/
theorem spec_c2_witness :
    (allNames (SettingsMetadata.mk
        [SettingsCategoryMetadata.mk "Appearance"
          [BoolSettingMetadata.make "alpha" "Alpha" (JSVal.boolV true),
           SettingMetadata.noteHtml (JSVal.str "a note")],
         SettingsCategoryMetadata.mk "Advanced"
          [TextSettingMetadata.make "beta" "Beta" (JSVal.str "x"),
           ColorSettingMetadata.make "gamma" "Gamma" (JSVal.str "#000000")]])).Nodup
  ∧ "" ∉ allNames (SettingsMetadata.mk
        [SettingsCategoryMetadata.mk "Appearance"
          [BoolSettingMetadata.make "alpha" "Alpha" (JSVal.boolV true),
           SettingMetadata.noteHtml (JSVal.str "a note")],
         SettingsCategoryMetadata.mk "Advanced"
          [TextSettingMetadata.make "beta" "Beta" (JSVal.str "x"),
           ColorSettingMetadata.make "gamma" "Gamma" (JSVal.str "#000000")]])
  ∧ some "beta" ∈ (SettingsMetadata.mk
        [SettingsCategoryMetadata.mk "Appearance"
          [BoolSettingMetadata.make "alpha" "Alpha" (JSVal.boolV true),
           SettingMetadata.noteHtml (JSVal.str "a note")],
         SettingsCategoryMetadata.mk "Advanced"
          [TextSettingMetadata.make "beta" "Beta" (JSVal.str "x"),
           ColorSettingMetadata.make "gamma" "Gamma" (JSVal.str "#000000")]]).keys
  ∧ ∃ m, (SettingsMetadata.mk
        [SettingsCategoryMetadata.mk "Appearance"
          [BoolSettingMetadata.make "alpha" "Alpha" (JSVal.boolV true),
           SettingMetadata.noteHtml (JSVal.str "a note")],
         SettingsCategoryMetadata.mk "Advanced"
          [TextSettingMetadata.make "beta" "Beta" (JSVal.str "x"),
           ColorSettingMetadata.make "gamma" "Gamma" (JSVal.str "#000000")]]).metadataFor
          "beta" = some m
      ∧ jsGet (SettingsMetadata.mk
        [SettingsCategoryMetadata.mk "Appearance"
          [BoolSettingMetadata.make "alpha" "Alpha" (JSVal.boolV true),
           SettingMetadata.noteHtml (JSVal.str "a note")],
         SettingsCategoryMetadata.mk "Advanced"
          [TextSettingMetadata.make "beta" "Beta" (JSVal.str "x"),
           ColorSettingMetadata.make "gamma" "Gamma" (JSVal.str "#000000")]]).defaultSettings
          "beta" = some m.defaultValue :=
  ⟨by decide, by decide, by decide, spec_c2 _ "beta" (by decide) (by decide) (by decide)⟩

/-- C8: for every non-empty string key, `metadataFor` on a settings
collection returns a metadata object exactly when the key occurs in
`keys()`; note entries (whose `name` is `undefined`) and unknown keys yield
`undefined`. -/
theorem spec_c8 (s : SettingsMetadata) (k : String) (hk : k ≠ "") :
    (s.metadataFor k).isSome ↔ some k ∈ s.keys := by
  rw [metadataFor_isSome_iff, mem_keys_iff]
  simp [hk]

/-- C8 (witness): instantiation of `spec_c8` at a one-category collection
containing a note, probed with a key that is present. -/
theorem spec_c8_witness :
    ("alpha" ≠ "")
  ∧ (((SettingsMetadata.mk
        [SettingsCategoryMetadata.mk "General"
          [SettingMetadata.noteHtml (JSVal.str "intro"),
           BoolSettingMetadata.make "alpha" "Alpha" (JSVal.boolV false)]]).metadataFor
          "alpha").isSome
      ↔ some "alpha" ∈ (SettingsMetadata.mk
        [SettingsCategoryMetadata.mk "General"
          [SettingMetadata.noteHtml (JSVal.str "intro"),
           BoolSettingMetadata.make "alpha" "Alpha" (JSVal.boolV false)]]).keys) :=
  ⟨by decide, spec_c8 _ "alpha" (by decide)⟩

/-- C10: the text and category constructors coerce to strings: a text
setting's default value is a string, and a category setting's default value
and the `value` and `text` fields of each of its items are strings. -/
theorem spec_c10 : ∀ (name label : String) (defaultValue : JSVal)
    (options : List JSVal),
    (TextSettingMetadata.make name label defaultValue).defaultValue.isString = true
  ∧ (CategorySettingMetadata.make name label options
      defaultValue).defaultValue.isString = true
  ∧ ∀ item ∈ (CategorySettingMetadata.make name label options defaultValue).items,
      item.value.isString = true ∧ item.text.isString = true := by
  intro name label defaultValue options
  refine ⟨rfl, rfl, ?_⟩
  intro item hitem
  rcases List.mem_map.mp hitem with ⟨o, _, rfl⟩
  exact ⟨rfl, rfl⟩

end Lurch
